import Mathlib

/-!
# Layer Composition Runtime — verification development

The repository excerpt contains a tutorial notebook
(`trax/layers/intro.ipynb`) describing a layer library's programming
model — layers with fixed input/output arities, a `Serial` combinator
with stack semantics, a `Parallel` combinator over contiguous input
spans, and an identity-keyed initialization protocol — together with an
experiment configuration file (`trax/configs/reformer_enwik8.gin`).

The implementations of `Serial`, `Parallel` and the initialization
protocol are not part of the excerpt: the notebook quotes their
docstrings and shows their use. The definitions below are therefore
modelled from the specification's words (and the docstring excerpts in
the notebook); each such definition says so in its doc comment. The
configuration file is present in full, and its relevant bindings are
embedded directly from the source.

Conventions: a stack is a `List` whose head is the top (the most
recently pushed value); popping `n` items yields the first `n` entries
of the list, and pushing a layer's output list places it at the head,
first output topmost, so a following layer receives the values in the
order the producing layer returned them. This matches the notebook's
worked example, where a `Parallel` producing (64s-place values,
8s-place values, 1s-place values) is followed by an `Add` that consumes
the 64s-place and 8s-place values.
-/

namespace TraxLayers

/-- Modelled from the spec: a layer is "a named unit declaring a fixed
input arity (count of values it consumes) and output arity (count it
produces)" with a forward computation. The forward computation receives
the list of popped values (most recently pushed first) and returns the
list of values to push. The trainable-parameter machinery is modelled
separately (see `LayerInstance`). -/
structure Layer (α : Type) where
  n_inputs : Nat
  n_outputs : Nat
  forward : List α → List α

/-- A layer honours its declared output arity: on any argument list of
its declared input length, `forward` returns exactly `n_outputs`
values. The notebook calls `n_outputs` the "number of outputs promised
by this layer". -/
def Layer.WellArity {α : Type} (L : Layer α) : Prop :=
  ∀ xs : List α, xs.length = L.n_inputs → (L.forward xs).length = L.n_outputs

/-- Modelled from the spec: one step of the Serial combinator's stack
semantics (the `Serial` implementation is absent from the excerpt; its
docstring appears in the notebook). The step "takes N_in items off the
top of the stack (N_in = k.n_inputs) and calls layer k, passing those
items as arguments", then "takes layer k's N_out return values
(N_out = k.n_outputs) and pushes them onto the data stack". -/
def stackStep {α : Type} (L : Layer α) (stack : List α) : List α :=
  L.forward (stack.take L.n_inputs) ++ stack.drop L.n_inputs

/-- Modelled from the spec: the Serial combinator's evaluation loop.
The initial values form the starting stack; each sublayer in order is
applied by `stackStep`; the remaining stack is the composite's
output. -/
def serialApply {α : Type} : List (Layer α) → List α → List α
  | [], stack => stack
  | L :: rest, stack => serialApply rest (stackStep L stack)

/-- Modelled from the spec: the Serial evaluation loop with the
underflow check made explicit — "if at any step the stack holds fewer
items than the next sublayer requires, this is a fatal configuration
error". A `none` result marks the underflow branch. -/
def serialApplyChecked {α : Type} : List (Layer α) → List α → Option (List α)
  | [], stack => some stack
  | L :: rest, stack =>
      if L.n_inputs ≤ stack.length then serialApplyChecked rest (stackStep L stack)
      else none

/-- Modelled from the spec: the dry-run arity check, computed from the
declared sublayer arities alone, tracking the running stack depth —
"detectable statically from declared arities without executing the
layer bodies". `depth` is the number of values on the stack when the
first listed sublayer runs. -/
def arityOk {α : Type} : Nat → List (Layer α) → Bool
  | _, [] => true
  | depth, L :: rest =>
      decide (L.n_inputs ≤ depth) && arityOk (depth - L.n_inputs + L.n_outputs) rest

/-- Modelled from the spec: the running stack depth after all sublayers
have run, starting from `depth` values, computed from declared arities
alone. -/
def netDepth {α : Type} : Nat → List (Layer α) → Nat
  | depth, [] => depth
  | depth, L :: rest => netDepth (depth - L.n_inputs + L.n_outputs) rest

/-- Modelled from the spec: derivation of a Serial composite's own
declared arities from "the net effect of its sublayer sequence". The
accumulator carries (initial values demanded so far, values currently
available on the stack); a sublayer wanting more than is available
raises the demand. -/
def serialArityAux {α : Type} (needed avail : Nat) : List (Layer α) → Nat × Nat
  | [] => (needed, avail)
  | L :: rest =>
      if avail < L.n_inputs then
        serialArityAux (needed + (L.n_inputs - avail)) L.n_outputs rest
      else
        serialArityAux needed (avail - L.n_inputs + L.n_outputs) rest

/-- Modelled from the spec: the (input arity, output arity) pair a
Serial composite declares for itself. -/
def serialArity {α : Type} (layers : List (Layer α)) : Nat × Nat :=
  serialArityAux 0 0 layers

/-- Modelled from the spec: the Serial combinator as a layer — "a unit
able to compute outputs from inputs" whose declared arity "is derived
from the net effect of its sublayer sequence". -/
def Serial {α : Type} (layers : List (Layer α)) : Layer α where
  n_inputs := (serialArity layers).1
  n_outputs := (serialArity layers).2
  forward := serialApply layers

/-- Modelled from the spec: building a Serial composition for a context
that will supply `nIn` initial values runs the dry-run arity check
first and reports an arity mismatch as a build-time error, before any
sublayer body can run. -/
def buildSerial {α : Type} (nIn : Nat) (layers : List (Layer α)) :
    Except String (Layer α) :=
  if arityOk nIn layers then
    Except.ok { n_inputs := nIn, n_outputs := netDepth nIn layers,
                forward := serialApply layers }
  else
    Except.error "arity mismatch in Serial composition"

/-- Modelled from the spec: the Parallel combinator's evaluation —
"partition a flat list of inputs into contiguous spans matching each
sublayer's declared input arity, invoke each sublayer independently on
its span, and concatenate (in order) the flattened outputs". -/
def parallelApply {α : Type} : List (Layer α) → List α → List α
  | [], _ => []
  | L :: rest, inputs =>
      L.forward (inputs.take L.n_inputs) ++ parallelApply rest (inputs.drop L.n_inputs)

/-- Modelled from the spec: the per-sublayer output lists of a Parallel
composition, before flattening. -/
def parallelSpans {α : Type} : List (Layer α) → List α → List (List α)
  | [], _ => []
  | L :: rest, inputs =>
      L.forward (inputs.take L.n_inputs) :: parallelSpans rest (inputs.drop L.n_inputs)

/-- Modelled from the spec: the Parallel combinator as a layer — "the
composite requires exactly A inputs and produces exactly B outputs"
where A and B are the sums of the sublayers' declared arities. -/
def Parallel {α : Type} (layers : List (Layer α)) : Layer α where
  n_inputs := (layers.map Layer.n_inputs).sum
  n_outputs := (layers.map Layer.n_outputs).sum
  forward := parallelApply layers

/-- Transcription of the Serial contract sentence as a relation: the
initial values form the stack; for each sublayer in order, the stack
splits as `popped ++ remainder` where `popped` holds exactly
`n_inputs` items (most recently pushed first), the sublayer is called
on `popped`, and its return values are pushed back on top; after all
sublayers, the remaining stack is the composite's output. -/
inductive SerialRel {α : Type} : List (Layer α) → List α → List α → Prop where
  | nil : ∀ stack : List α, SerialRel [] stack stack
  | step : ∀ (L : Layer α) (rest : List (Layer α)) (popped remainder out : List α),
      popped.length = L.n_inputs →
      SerialRel rest (L.forward popped ++ remainder) out →
      SerialRel (L :: rest) (popped ++ remainder) out

/-- Modelled from the spec: the number of input values consumed by the
sublayers before sublayer `k` of a Parallel composition — the start of
sublayer `k`'s contiguous input span. -/
def inputOffset {α : Type} (layers : List (Layer α)) (k : Nat) : Nat :=
  ((layers.take k).map Layer.n_inputs).sum

/-- Modelled from the spec: the contiguous span of inputs belonging to
sublayer `k` of a Parallel composition. -/
def spanInput {α : Type} (layers : List (Layer α)) (inputs : List α) (k : Nat) : List α :=
  match layers[k]? with
  | some L => (inputs.drop (inputOffset layers k)).take L.n_inputs
  | none => []

/-- Modelled from the spec: sublayer `k`'s output list in a Parallel
composition — a function of the sublayer and its own input span
only. -/
def slotResult {α : Type} (layers : List (Layer α)) (inputs : List α) (k : Nat) : List α :=
  match layers[k]? with
  | some L => L.forward (spanInput layers inputs k)
  | none => []

/-- Modelled from the spec: an evaluation of a Parallel composition's
sublayers in an arbitrary schedule. Each visited index has its
sublayer's result stored in that sublayer's slot; the slots are kept in
sublayer order regardless of the visit order. -/
def runSchedule {α : Type} (layers : List (Layer α)) (inputs : List α)
    (order : List Nat) : List (List α) :=
  order.foldl (fun slots k => slots.set k (slotResult layers inputs k))
    (List.replicate layers.length [])

/-! ## Concrete layers from the notebook's examples

The notebook's worked examples use `tl.MulConstant` (1 input, 1 output:
multiply an array elementwise by a constant) and `tl.Add` (2 inputs,
1 output: elementwise sum of two arrays). Their implementations are not
in the excerpt either; they are modelled from the notebook's
descriptions and printed outputs, with arrays as integer lists. -/

/-- Modelled from the spec: the notebook's `tl.MulConstant(constant=c)`
layer — one input, one output, multiplying each entry of its input
array by `c`. -/
def MulConstant (c : Int) : Layer (List Int) where
  n_inputs := 1
  n_outputs := 1
  forward := fun args => [(args.headD []).map (fun x => x * c)]

/-- Modelled from the spec: the notebook's `tl.Add()` layer — two
inputs, one output, the elementwise sum of its two input arrays. -/
def Add : Layer (List Int) where
  n_inputs := 2
  n_outputs := 1
  forward := fun args => [List.zipWith (fun a b => a + b) (args.headD []) ((args.drop 1).headD [])]

/-- The notebook's `octal_place_values` combination: three
multiply-by-constant layers (by 64, 8 and 1) in Parallel. -/
def octal_place_values : Layer (List Int) :=
  Parallel [MulConstant 64, MulConstant 8, MulConstant 1]

/-- The notebook's `evaluate_octal` combination: `octal_place_values`
followed by two pairwise additions, in Serial. -/
def evaluate_octal : Layer (List Int) :=
  Serial [octal_place_values, Add, Add]

/-- A one-input one-output layer adding one to its (scalar) input, used
to exercise the composition law on concrete data. -/
def incLayer : Layer Int where
  n_inputs := 1
  n_outputs := 1
  forward := fun args => [args.headD 0 + 1]

/-- A one-input one-output layer doubling its (scalar) input, used to
exercise the composition law on concrete data. -/
def doubleLayer : Layer Int where
  n_inputs := 1
  n_outputs := 1
  forward := fun args => [args.headD 0 * 2]

/-! ## Initialization protocol

The spec's initialization protocol (`initialize_once` in the notebook's
docstring excerpt) initializes "each layer instance once, even if the
same layer instance occurs in multiple places in the network", enabling
"weight sharing ... implemented as layer sharing". Following the spec's
design note, instance identity is modelled as an explicit stable
identifier, and the protocol as identity-keyed memoization. -/

/-- Modelled from the spec: an occurrence of a layer instance in a
composition, reduced to what the initialization protocol consumes — a
stable instance identifier and the parameter value the instance's own
initializer would produce. Two occurrences of one shared instance carry
the same `id`. -/
structure LayerInstance (π : Type) where
  id : Nat
  initParams : π

/-- Modelled from the spec: one visit of the initialization pass to an
instance occurrence. The state is the identity-keyed parameter
environment together with a count of initializer invocations performed
(the "work"). An already-initialized instance is left untouched and
costs no work; a fresh one has its initializer run once and its
parameters recorded. -/
def initOnce {π : Type} (st : List (Nat × π) × Nat) (inst : LayerInstance π) :
    List (Nat × π) × Nat :=
  match st.1.lookup inst.id with
  | some _ => st
  | none => ((inst.id, inst.initParams) :: st.1, st.2 + 1)

/-- Modelled from the spec: one composition's initialization pass,
visiting the instance occurrences in sequence starting from an empty
environment and zero work. -/
def initPass {π : Type} (occs : List (LayerInstance π)) : List (Nat × π) × Nat :=
  occs.foldl initOnce ([], 0)

/-- A concrete shared layer instance (identifier 0, parameter value 42)
used to exercise the sharing laws on concrete data. -/
def sharedInstance : LayerInstance Int where
  id := 0
  initParams := 42

end TraxLayers

namespace ReformerEnwik8Gin

/-!
## The configuration file `trax/configs/reformer_enwik8.gin`

The numeric and boolean bindings for `LSHCausalAttention` as written in
the file, embedded directly from the source. -/

/-- The `LSHCausalAttention.*` bindings of `reformer_enwik8.gin`,
values taken verbatim from the file (rates that the file writes as
`0.0` are embedded as rationals). -/
structure LSHCausalAttentionBindings where
  n_bins : Nat
  n_buckets : Nat
  n_hashes : Nat
  drop_for_hash_rate : Rat
  allow_duplicate_attention : Bool
  attend_across_buckets : Bool
  rehash_each_round : Bool
  one_rng : Bool
  hard_k : Nat
  dropout : Rat

/-- The binding values as written in `reformer_enwik8.gin` (lines
36-39, 86-94). -/
def lshCausalAttention : LSHCausalAttentionBindings where
  n_bins := 512
  n_buckets := 1024
  n_hashes := 2
  drop_for_hash_rate := 0
  allow_duplicate_attention := false
  attend_across_buckets := false
  rehash_each_round := true
  one_rng := false
  hard_k := 0
  dropout := 0

end ReformerEnwik8Gin

/-! ## Theorems -/

namespace TraxLayers

/-- The stack length after one Serial step, when the layer honours its
declared arities and the stack is deep enough. -/
theorem stackStep_length {α : Type} (L : Layer α) (s : List α) (hW : L.WellArity)
    (h : L.n_inputs ≤ s.length) :
    (stackStep L s).length = s.length - L.n_inputs + L.n_outputs := by
  have ht : (s.take L.n_inputs).length = L.n_inputs := by
    rw [List.length_take]; omega
  simp only [stackStep, List.length_append, List.length_drop, hW _ ht]
  omega

/-- When the dry-run arity check passes and every sublayer honours its
declared arities, the checked Serial evaluation succeeds and agrees
with the total evaluation loop. -/
theorem serialApplyChecked_eq_some {α : Type} :
    ∀ (layers : List (Layer α)) (inputs : List α),
      (∀ L ∈ layers, L.WellArity) → arityOk inputs.length layers = true →
      serialApplyChecked layers inputs = some (serialApply layers inputs)
  | [], _, _, _ => rfl
  | L :: rest, inputs, hW, hA => by
      simp only [arityOk, Bool.and_eq_true, decide_eq_true_eq] at hA
      obtain ⟨h1, h2⟩ := hA
      simp only [serialApplyChecked, serialApply, if_pos h1]
      have hlen : (stackStep L inputs).length = inputs.length - L.n_inputs + L.n_outputs :=
        stackStep_length L inputs (hW L (by simp)) h1
      exact serialApplyChecked_eq_some rest (stackStep L inputs)
        (fun M hM => hW M (by simp [hM])) (by rw [hlen]; exact h2)

/-- When the dry-run arity check fails and every sublayer honours its
declared arities, the checked Serial evaluation reaches the underflow
branch. -/
theorem serialApplyChecked_eq_none {α : Type} :
    ∀ (layers : List (Layer α)) (inputs : List α),
      (∀ L ∈ layers, L.WellArity) → arityOk inputs.length layers = false →
      serialApplyChecked layers inputs = none
  | [], _, _, hA => by simp [arityOk] at hA
  | L :: rest, inputs, hW, hA => by
      by_cases h1 : L.n_inputs ≤ inputs.length
      · simp only [arityOk, decide_eq_true h1, Bool.true_and] at hA
        simp only [serialApplyChecked, if_pos h1]
        have hlen : (stackStep L inputs).length = inputs.length - L.n_inputs + L.n_outputs :=
          stackStep_length L inputs (hW L (by simp)) h1
        exact serialApplyChecked_eq_none rest (stackStep L inputs)
          (fun M hM => hW M (by simp [hM])) (by rw [hlen]; exact hA)
      · simp only [serialApplyChecked, if_neg h1]

/-- A successful checked Serial evaluation agrees with the total
evaluation loop. -/
theorem serialApply_of_checked {α : Type} :
    ∀ (layers : List (Layer α)) (inputs out : List α),
      serialApplyChecked layers inputs = some out → serialApply layers inputs = out
  | [], inputs, out, h => by simpa [serialApplyChecked, serialApply] using h
  | L :: rest, inputs, out, h => by
      by_cases h1 : L.n_inputs ≤ inputs.length
      · simp only [serialApplyChecked, if_pos h1] at h
        simpa [serialApply] using serialApply_of_checked rest (stackStep L inputs) out h
      · simp [serialApplyChecked, if_neg h1] at h

/-- C1. For every Serial composition of sublayers invoked on initial
values, the evaluation pushes the initial values onto the data stack,
then for each sublayer in order pops exactly `n_inputs` items off the
top (most recently pushed first), calls the sublayer on them, and
pushes its `n_outputs` return values back on top; the remaining stack
is the composite's output. Formally: the transcription `SerialRel` of
that procedure holds exactly when the checked Serial evaluator returns
the output, and any such run is what the `Serial` composite layer
computes. -/
theorem c1_serial_stack_semantics {α : Type} (layers : List (Layer α))
    (inputs out : List α) :
    (SerialRel layers inputs out ↔ serialApplyChecked layers inputs = some out) ∧
    (SerialRel layers inputs out → (Serial layers).forward inputs = out) := by
  have main : ∀ (ls : List (Layer α)) (s o : List α),
      SerialRel ls s o ↔ serialApplyChecked ls s = some o := by
    intro ls
    induction ls with
    | nil =>
      intro s o
      constructor
      · intro h; cases h; rfl
      · intro h
        obtain rfl : s = o := by simpa [serialApplyChecked] using h
        exact SerialRel.nil s
    | cons L rest ih =>
      intro s o
      constructor
      · intro h
        cases h with
        | step _ _ popped remainder _ hpop hrest =>
          have hle : L.n_inputs ≤ (popped ++ remainder).length := by
            rw [List.length_append]; omega
          have hstep : stackStep L (popped ++ remainder) = L.forward popped ++ remainder := by
            rw [stackStep, List.take_left' hpop, List.drop_left' hpop]
          simp only [serialApplyChecked, if_pos hle, hstep]
          exact (ih _ _).mp hrest
      · intro h
        by_cases hle : L.n_inputs ≤ s.length
        · simp only [serialApplyChecked, if_pos hle] at h
          have hpop : (s.take L.n_inputs).length = L.n_inputs := by
            rw [List.length_take]; omega
          have hrel : SerialRel rest (L.forward (s.take L.n_inputs) ++ s.drop L.n_inputs) o :=
            (ih _ _).mpr h
          have hsplit : s.take L.n_inputs ++ s.drop L.n_inputs = s :=
            List.take_append_drop _ _
          have hstep := SerialRel.step L rest _ _ o hpop hrel
          rwa [hsplit] at hstep
        · simp [serialApplyChecked, if_neg hle] at h
  refine ⟨main layers inputs out, fun h => ?_⟩
  exact serialApply_of_checked layers inputs out ((main layers inputs out).mp h)

/-- Witness for C1: a one-step Serial run on a concrete stack, obtained
by applying the theorem at the increment layer. -/
theorem c1_witness :
    SerialRel [incLayer] [(3 : Int)] [4] ∧ (Serial [incLayer]).forward [(3 : Int)] = [4] :=
  ⟨(c1_serial_stack_semantics [incLayer] [(3 : Int)] [4]).1.mpr rfl,
   (c1_serial_stack_semantics [incLayer] [(3 : Int)] [4]).2
     ((c1_serial_stack_semantics [incLayer] [(3 : Int)] [4]).1.mpr rfl)⟩

end TraxLayers

namespace TraxLayers

/-- C2. For every pair of single-input/single-output layers A and B and
every input x, applying Serial(A, B) to x equals applying B to the
result of applying A to x (functional composition law). A is asked to
honour its declared output arity so that B receives exactly A's one
result. -/
theorem c2_serial_is_function_composition {α : Type} (A B : Layer α) (x : α)
    (hA1 : A.n_inputs = 1) (hA2 : A.n_outputs = 1) (hAW : A.WellArity)
    (hB1 : B.n_inputs = 1) (_hB2 : B.n_outputs = 1) :
    (Serial [A, B]).forward [x] = B.forward (A.forward [x]) := by
  show serialApply [A, B] [x] = B.forward (A.forward [x])
  have hsA : stackStep A [x] = A.forward [x] := by
    rw [stackStep, hA1]
    simp
  obtain ⟨y, hy⟩ := List.length_eq_one.mp (by rw [hAW [x] (by simp [hA1]), hA2])
  have hsB : stackStep B (A.forward [x]) = B.forward (A.forward [x]) := by
    rw [hy, stackStep, hB1]
    simp
  calc serialApply [A, B] [x] = stackStep B (stackStep A [x]) := rfl
    _ = B.forward (A.forward [x]) := by rw [hsA, hsB]

/-- Witness for C2: composing the increment and doubling layers on the
input 3 gives double(inc(3)) = 8. -/
theorem c2_witness :
    incLayer.WellArity ∧
    (Serial [incLayer, doubleLayer]).forward [(3 : Int)]
      = doubleLayer.forward (incLayer.forward [(3 : Int)]) ∧
    doubleLayer.forward (incLayer.forward [(3 : Int)]) = [8] :=
  ⟨fun _ _ => rfl,
   c2_serial_is_function_composition incLayer doubleLayer 3 rfl rfl (fun _ _ => rfl) rfl rfl,
   rfl⟩

/-- C7. For every Serial composition satisfying the arity invariant —
the running stack depth, tracked from the initial values through the
declared arities of the prior sublayers, always suffices for the next
sublayer's declared input arity (`arityOk`) — evaluation never pops
from a too-shallow stack: the checked evaluator's underflow branch is
unreachable and it returns the evaluation loop's result. -/
theorem c7_arity_invariant_no_underflow {α : Type} (layers : List (Layer α))
    (inputs : List α) (hW : ∀ L ∈ layers, L.WellArity)
    (hA : arityOk inputs.length layers = true) :
    serialApplyChecked layers inputs = some (serialApply layers inputs) :=
  serialApplyChecked_eq_some layers inputs hW hA

/-- Witness for C7: the notebook's `evaluate_octal` pipeline (a
three-in three-out Parallel followed by two binary additions) run on
the notebook's inputs never underflows. -/
theorem c7_witness :
    (∀ L ∈ [octal_place_values, Add, Add], L.WellArity) ∧
    arityOk 3 ([octal_place_values, Add, Add] : List (Layer (List Int))) = true ∧
    serialApplyChecked [octal_place_values, Add, Add] [[1, 3, 5], [2, 4, 6], [3, 5, 7]]
      = some (serialApply [octal_place_values, Add, Add] [[1, 3, 5], [2, 4, 6], [3, 5, 7]]) := by
  have hW : ∀ L ∈ [octal_place_values, Add, Add], L.WellArity := by
    intro L hL
    simp only [List.mem_cons, List.not_mem_nil, or_false] at hL
    rcases hL with h | h | h <;> subst h <;> exact fun _ _ => rfl
  exact ⟨hW, rfl,
    c7_arity_invariant_no_underflow [octal_place_values, Add, Add]
      [[1, 3, 5], [2, 4, 6], [3, 5, 7]] hW rfl⟩

end TraxLayers

namespace TraxLayers

/-- The dry-run arity check depends only on the declared arities of the
sublayers, not on their forward computations. -/
theorem arityOk_congr {α : Type} :
    ∀ (layers1 layers2 : List (Layer α)) (d : Nat),
      layers1.map (fun L => (L.n_inputs, L.n_outputs))
        = layers2.map (fun L => (L.n_inputs, L.n_outputs)) →
      arityOk d layers1 = arityOk d layers2
  | [], layers2, d, h => by
      have : layers2 = [] := List.map_eq_nil_iff.mp h.symm
      rw [this]
  | L :: rest1, layers2, d, h => by
      match layers2 with
      | [] => exact absurd h (by simp)
      | M :: rest2 =>
        simp only [List.map_cons, List.cons.injEq, Prod.mk.injEq] at h
        obtain ⟨⟨hin, hout⟩, hrest⟩ := h
        simp only [arityOk, hin, hout]
        rw [arityOk_congr rest1 rest2 (d - M.n_inputs + M.n_outputs) hrest]

/-- Building a Serial composition reports an error exactly when the
dry-run arity check fails. -/
theorem buildSerial_error_iff {α : Type} (d : Nat) (layers : List (Layer α)) :
    (∃ msg, buildSerial d layers = Except.error msg) ↔ arityOk d layers = false := by
  by_cases hA : arityOk d layers = true
  · simp [buildSerial, hA]
  · have hA' : arityOk d layers = false := by
      cases h : arityOk d layers
      · rfl
      · exact absurd h hA
    simp [buildSerial, hA']

/-- For sublayers honouring their declared arities, the checked Serial
evaluation underflows exactly when the dry-run arity check fails on the
input count. -/
theorem serialApplyChecked_none_iff {α : Type} (layers : List (Layer α))
    (inputs : List α) (hW : ∀ L ∈ layers, L.WellArity) :
    serialApplyChecked layers inputs = none ↔ arityOk inputs.length layers = false := by
  cases h : arityOk inputs.length layers
  · simp [serialApplyChecked_eq_none layers inputs hW h]
  · simp [serialApplyChecked_eq_some layers inputs hW h]

/-- C4. For every Serial composition in which some step would require
more items than the stack then holds, the arity mismatch is a fatal
configuration error detected statically from the declared sublayer
arities (two sublayer lists with the same declared arities give the
same verdict, whatever their bodies) and reported at composition-build
time — for sublayers honouring their declared arities, the build
reports an error exactly when invoking the composition would reach the
underflow branch, so the failure is not deferred to first
invocation. -/
theorem c4_arity_mismatch_build_time {α : Type} :
    (∀ (layers1 layers2 : List (Layer α)) (d : Nat),
        layers1.map (fun L => (L.n_inputs, L.n_outputs))
          = layers2.map (fun L => (L.n_inputs, L.n_outputs)) →
        arityOk d layers1 = arityOk d layers2) ∧
    (∀ (d : Nat) (layers : List (Layer α)),
        (∃ msg, buildSerial d layers = Except.error msg) ↔ arityOk d layers = false) ∧
    (∀ (layers : List (Layer α)) (inputs : List α),
        (∀ L ∈ layers, L.WellArity) →
        (serialApplyChecked layers inputs = none ↔
          ∃ msg, buildSerial inputs.length layers = Except.error msg)) :=
  ⟨fun layers1 layers2 d h => arityOk_congr layers1 layers2 d h,
   fun d layers => buildSerial_error_iff d layers,
   fun layers inputs hW => by
     rw [serialApplyChecked_none_iff layers inputs hW, buildSerial_error_iff]⟩

/-- Witness for C4: a lone two-input `Add` given a single value is
rejected at build time, matching the run-time underflow; the verdict
agrees between two bodies with equal declared arities. -/
theorem c4_witness :
    arityOk 1 [MulConstant 2] = arityOk 1 [MulConstant 5] ∧
    ((∃ msg, buildSerial 1 ([Add] : List (Layer (List Int))) = Except.error msg)
      ↔ arityOk 1 ([Add] : List (Layer (List Int))) = false) ∧
    (serialApplyChecked [Add] [[1]] = none ↔
      ∃ msg, buildSerial 1 ([Add] : List (Layer (List Int))) = Except.error msg) :=
  ⟨c4_arity_mismatch_build_time.1 [MulConstant 2] [MulConstant 5] 1 rfl,
   c4_arity_mismatch_build_time.2.1 1 [Add],
   c4_arity_mismatch_build_time.2.2 [Add] [[1]]
     (fun L hL => by
       simp only [List.mem_cons, List.not_mem_nil, or_false] at hL
       subst hL
       exact fun _ _ => rfl)⟩

/-- The length of a Parallel evaluation's output is the sum of the
sublayers' declared output arities, when the sublayers honour their
arities and the inputs have the declared total length. -/
theorem parallelApply_length {α : Type} :
    ∀ (layers : List (Layer α)) (inputs : List α),
      (∀ L ∈ layers, L.WellArity) →
      inputs.length = (layers.map Layer.n_inputs).sum →
      (parallelApply layers inputs).length = (layers.map Layer.n_outputs).sum
  | [], inputs, _, _ => by simp [parallelApply]
  | L :: rest, inputs, hW, hlen => by
      simp only [List.map_cons, List.sum_cons] at hlen
      have h1 : (inputs.take L.n_inputs).length = L.n_inputs := by
        rw [List.length_take]; omega
      simp only [parallelApply, List.length_append, List.map_cons, List.sum_cons]
      rw [hW L (by simp) _ h1,
        parallelApply_length rest _ (fun M hM => hW M (by simp [hM]))
          (by rw [List.length_drop]; omega)]

/-- C3. For every Parallel composition, the composite declares exactly
the sum of the sublayers' input arities as its input count and the sum
of their output arities as its output count; for arity-honouring
sublayers on an input list of the declared total length, the output has
exactly the declared total output length; and for three
single-input/single-output layers F, G, H on inputs (a, b, c), the
output is the concatenation F(a), G(b), H(c) of the per-span
results. -/
theorem c3_parallel_contract {α : Type} :
    (∀ layers : List (Layer α),
        (Parallel layers).n_inputs = (layers.map Layer.n_inputs).sum ∧
        (Parallel layers).n_outputs = (layers.map Layer.n_outputs).sum) ∧
    (∀ (layers : List (Layer α)) (inputs : List α),
        (∀ L ∈ layers, L.WellArity) →
        inputs.length = (layers.map Layer.n_inputs).sum →
        ((Parallel layers).forward inputs).length = (layers.map Layer.n_outputs).sum) ∧
    (∀ (F G H : Layer α) (a b c : α),
        F.n_inputs = 1 → G.n_inputs = 1 → H.n_inputs = 1 →
        (Parallel [F, G, H]).forward [a, b, c]
          = F.forward [a] ++ G.forward [b] ++ H.forward [c]) := by
  refine ⟨fun layers => ⟨rfl, rfl⟩,
    fun layers inputs hW hlen => parallelApply_length layers inputs hW hlen,
    fun F G H a b c hF hG hH => ?_⟩
  show parallelApply [F, G, H] [a, b, c] = F.forward [a] ++ G.forward [b] ++ H.forward [c]
  simp only [parallelApply, hF, hG, hH]
  simp [List.append_assoc]

/-- Witness for C3: the notebook's three multiply-by-constant layers —
arities 3 and 3 for the composite, and the per-span concatenation on
the notebook's three input arrays. -/
theorem c3_witness :
    ((Parallel [MulConstant 64, MulConstant 8, MulConstant 1]).n_inputs
        = ([MulConstant 64, MulConstant 8, MulConstant 1].map Layer.n_inputs).sum ∧
      (Parallel [MulConstant 64, MulConstant 8, MulConstant 1]).n_outputs
        = ([MulConstant 64, MulConstant 8, MulConstant 1].map Layer.n_outputs).sum) ∧
    ((Parallel [MulConstant 64, MulConstant 8, MulConstant 1]).forward
        [[1, 3, 5], [2, 4, 6], [3, 5, 7]]).length
      = ([MulConstant 64, MulConstant 8, MulConstant 1].map Layer.n_outputs).sum ∧
    (Parallel [MulConstant 64, MulConstant 8, MulConstant 1]).forward
        [[1, 3, 5], [2, 4, 6], [3, 5, 7]]
      = (MulConstant 64).forward [[1, 3, 5]] ++ (MulConstant 8).forward [[2, 4, 6]]
          ++ (MulConstant 1).forward [[3, 5, 7]] :=
  ⟨c3_parallel_contract.1 [MulConstant 64, MulConstant 8, MulConstant 1],
   c3_parallel_contract.2.1 [MulConstant 64, MulConstant 8, MulConstant 1]
     [[1, 3, 5], [2, 4, 6], [3, 5, 7]]
     (fun L hL => by
       simp only [List.mem_cons, List.not_mem_nil, or_false] at hL
       rcases hL with h | h | h <;> subst h <;> exact fun _ _ => rfl)
     rfl,
   c3_parallel_contract.2.2 (MulConstant 64) (MulConstant 8) (MulConstant 1)
     [1, 3, 5] [2, 4, 6] [3, 5, 7] rfl rfl rfl⟩

end TraxLayers

namespace TraxLayers

/-- The arity derivation balances: demanded initial values plus
produced counts equal the final stack depth plus consumed counts,
generalized over the accumulator. -/
theorem serialArityAux_net {α : Type} :
    ∀ (layers : List (Layer α)) (needed avail : Nat),
      (serialArityAux needed avail layers).1 + avail + (layers.map Layer.n_outputs).sum
        = (serialArityAux needed avail layers).2 + needed + (layers.map Layer.n_inputs).sum
  | [], needed, avail => by simp [serialArityAux]; omega
  | L :: rest, needed, avail => by
      simp only [serialArityAux, List.map_cons, List.sum_cons]
      by_cases h : avail < L.n_inputs
      · rw [if_pos h]
        have ih := serialArityAux_net rest (needed + (L.n_inputs - avail)) L.n_outputs
        omega
      · rw [if_neg h]
        have ih := serialArityAux_net rest needed (avail - L.n_inputs + L.n_outputs)
        omega

/-- The arity derivation never lowers the demanded-input count. -/
theorem serialArityAux_needed_le {α : Type} :
    ∀ (layers : List (Layer α)) (needed avail : Nat),
      needed ≤ (serialArityAux needed avail layers).1
  | [], _, _ => Nat.le_refl _
  | L :: rest, needed, avail => by
      simp only [serialArityAux]
      by_cases h : avail < L.n_inputs
      · rw [if_pos h]
        exact Nat.le_trans (Nat.le_add_right _ _)
          (serialArityAux_needed_le rest (needed + (L.n_inputs - avail)) L.n_outputs)
      · rw [if_neg h]
        exact serialArityAux_needed_le rest needed (avail - L.n_inputs + L.n_outputs)

/-- The derived output arity is the running stack depth left after all
sublayers, starting from the available values plus the extra initial
values the derivation demanded. -/
theorem serialArityAux_depth {α : Type} :
    ∀ (layers : List (Layer α)) (needed avail : Nat),
      (serialArityAux needed avail layers).2
        = netDepth (avail + ((serialArityAux needed avail layers).1 - needed)) layers
  | [], needed, avail => by simp [serialArityAux, netDepth]
  | L :: rest, needed, avail => by
      simp only [serialArityAux, netDepth]
      by_cases h : avail < L.n_inputs
      · rw [if_pos h]
        have hle := serialArityAux_needed_le rest (needed + (L.n_inputs - avail)) L.n_outputs
        have ih := serialArityAux_depth rest (needed + (L.n_inputs - avail)) L.n_outputs
        have harg : avail + ((serialArityAux (needed + (L.n_inputs - avail))
              L.n_outputs rest).1 - needed) - L.n_inputs + L.n_outputs
            = L.n_outputs + ((serialArityAux (needed + (L.n_inputs - avail))
              L.n_outputs rest).1 - (needed + (L.n_inputs - avail))) := by
          omega
        rw [harg]
        exact ih
      · rw [if_neg h]
        have ih := serialArityAux_depth rest needed (avail - L.n_inputs + L.n_outputs)
        have harg : avail + ((serialArityAux needed
              (avail - L.n_inputs + L.n_outputs) rest).1 - needed) - L.n_inputs + L.n_outputs
            = avail - L.n_inputs + L.n_outputs + ((serialArityAux needed
              (avail - L.n_inputs + L.n_outputs) rest).1 - needed) := by
          omega
        rw [harg]
        exact ih

/-- C6. For every Serial composition, the composite's own declared
input and output arities are derived from the net effect of its
sublayer sequence: derived input arity plus the sum of produced counts
equals derived output arity plus the sum of consumed counts, the
derived output arity is the running stack depth tracked from the
derived input arity through the sublayers, and in particular the
notebook's Serial of a 3-in/3-out Parallel followed by two 2-in/1-out
additions declares 3 inputs and 1 output. -/
theorem c6_serial_arity_net_effect :
    (∀ {α : Type} (layers : List (Layer α)),
        (serialArity layers).1 + (layers.map Layer.n_outputs).sum
          = (serialArity layers).2 + (layers.map Layer.n_inputs).sum ∧
        (serialArity layers).2 = netDepth (serialArity layers).1 layers) ∧
    evaluate_octal.n_inputs = 3 ∧ evaluate_octal.n_outputs = 1 := by
  refine ⟨fun {α} layers => ⟨?_, ?_⟩, rfl, rfl⟩
  · have h := serialArityAux_net layers 0 0
    simpa [serialArity] using h
  · have h := serialArityAux_depth layers 0 0
    simpa [serialArity] using h

end TraxLayers

namespace TraxLayers

/-- Shifting a slot index past the head sublayer of a Parallel
composition drops the head's input span. -/
theorem slotResult_cons_succ {α : Type} (L : Layer α) (rest : List (Layer α))
    (inputs : List α) (k : Nat) :
    slotResult (L :: rest) inputs (k + 1) = slotResult rest (inputs.drop L.n_inputs) k := by
  have hoff : inputOffset (L :: rest) (k + 1) = L.n_inputs + inputOffset rest k := by
    simp [inputOffset, List.take_succ_cons]
  have hspan : spanInput (L :: rest) inputs (k + 1)
      = spanInput rest (inputs.drop L.n_inputs) k := by
    simp only [spanInput, List.getElem?_cons_succ, hoff, List.drop_drop]
  simp only [slotResult, List.getElem?_cons_succ, hspan]

/-- The per-sublayer outputs of a Parallel composition are the
independent slot results, in sublayer order. -/
theorem parallelSpans_eq_map {α : Type} :
    ∀ (layers : List (Layer α)) (inputs : List α),
      parallelSpans layers inputs
        = (List.range layers.length).map (slotResult layers inputs)
  | [], _ => rfl
  | L :: rest, inputs => by
      rw [parallelSpans, List.length_cons, List.range_succ_eq_map,
        List.map_cons, List.map_map]
      have h0 : slotResult (L :: rest) inputs 0 = L.forward (inputs.take L.n_inputs) := by
        simp [slotResult, spanInput, inputOffset]
      rw [h0, parallelSpans_eq_map rest (inputs.drop L.n_inputs)]
      have hfun : (List.range rest.length).map (slotResult (L :: rest) inputs ∘ Nat.succ)
          = (List.range rest.length).map (slotResult rest (inputs.drop L.n_inputs)) :=
        List.map_congr_left (fun k _ => slotResult_cons_succ L rest inputs k)
      rw [hfun]

/-- Flattening the per-sublayer outputs gives the Parallel
evaluation. -/
theorem parallelApply_eq_flatten {α : Type} :
    ∀ (layers : List (Layer α)) (inputs : List α),
      parallelApply layers inputs = (parallelSpans layers inputs).flatten
  | [], _ => rfl
  | L :: rest, inputs => by
      rw [parallelApply, parallelSpans, List.flatten_cons,
        parallelApply_eq_flatten rest (inputs.drop L.n_inputs)]

/-- Folding slot writes leaves the slot count unchanged. -/
theorem foldl_set_length {β : Type} (f : Nat → β) :
    ∀ (order : List Nat) (slots : List β),
      (order.foldl (fun s k => s.set k (f k)) slots).length = slots.length
  | [], _ => rfl
  | k :: rest, slots => by
      rw [List.foldl_cons, foldl_set_length f rest, List.length_set]

/-- A slot already holding its own value keeps that value through any
further slot writes: every write to a slot stores the same pure
function of its index. -/
theorem foldl_set_preserve {β : Type} (f : Nat → β) :
    ∀ (order : List Nat) (slots : List β) (j : Nat),
      slots[j]? = some (f j) →
      (order.foldl (fun s k => s.set k (f k)) slots)[j]? = some (f j)
  | [], _, _, h => h
  | k :: rest, slots, j, h => by
      rw [List.foldl_cons]
      apply foldl_set_preserve f rest
      by_cases hkj : k = j
      · subst hkj
        have hjlt : k < slots.length := by
          by_contra hc
          rw [List.getElem?_eq_none (Nat.le_of_not_lt hc)] at h
          cases h
        rw [List.getElem?_set_self hjlt]
      · rw [List.getElem?_set_ne hkj]
        exact h

/-- After a schedule visits an index, that slot holds its sublayer's
result. -/
theorem foldl_set_get {β : Type} (f : Nat → β) :
    ∀ (order : List Nat) (slots : List β) (j : Nat),
      j ∈ order → j < slots.length →
      (order.foldl (fun s k => s.set k (f k)) slots)[j]? = some (f j)
  | [], _, j, hmem, _ => absurd hmem (List.not_mem_nil j)
  | k :: rest, slots, j, hmem, hlt => by
      rw [List.foldl_cons]
      by_cases hj : j ∈ rest
      · exact foldl_set_get f rest _ j hj (by rw [List.length_set]; exact hlt)
      · have hkj : k = j := by
          rcases List.mem_cons.mp hmem with h | h
          · exact h.symm
          · exact absurd h hj
        subst hkj
        exact foldl_set_preserve f rest _ k (List.getElem?_set_self hlt)

/-- C8. For every Parallel composition, each sublayer's outputs depend
only on that sublayer's own input span (equal spans give equal slot
results, whatever the rest of the inputs), so evaluating the sublayers
under any schedule that visits each sublayer exactly once — the
sequential order included — flattens to exactly the Parallel
composite's output. -/
theorem c8_parallel_order_independence {α : Type} (layers : List (Layer α))
    (inputs : List α) :
    (∀ (inputs2 : List α) (k : Nat),
        spanInput layers inputs k = spanInput layers inputs2 k →
        slotResult layers inputs k = slotResult layers inputs2 k) ∧
    (∀ order : List Nat, order.Perm (List.range layers.length) →
        (runSchedule layers inputs order).flatten = (Parallel layers).forward inputs) := by
  constructor
  · intro inputs2 k hspan
    simp only [slotResult]
    cases h : layers[k]? with
    | none => rfl
    | some L => rw [hspan]
  · intro order hperm
    have hsched : runSchedule layers inputs order
        = (List.range layers.length).map (slotResult layers inputs) := by
      apply List.ext_getElem?
      intro j
      by_cases hj : j < layers.length
      · rw [runSchedule, foldl_set_get _ order _ j
          (hperm.mem_iff.mpr (List.mem_range.mpr hj))
          (by rw [List.length_replicate]; exact hj)]
        rw [List.getElem?_map, List.getElem?_range hj, Option.map_some']
      · have h1 : (runSchedule layers inputs order).length ≤ j := by
          rw [runSchedule, foldl_set_length, List.length_replicate]
          omega
        have h2 : ((List.range layers.length).map (slotResult layers inputs)).length ≤ j := by
          rw [List.length_map, List.length_range]
          omega
        rw [List.getElem?_eq_none h1, List.getElem?_eq_none h2]
    rw [hsched, ← parallelSpans_eq_map]
    exact (parallelApply_eq_flatten layers inputs).symm

/-- Witness for C8: evaluating the notebook's three parallel
multiply-by-constant layers in the schedule 2, 0, 1 flattens to the
sequential Parallel output. -/
theorem c8_witness :
    List.Perm [2, 0, 1] (List.range 3) ∧
    (runSchedule [MulConstant 64, MulConstant 8, MulConstant 1]
        [[1, 3, 5], [2, 4, 6], [3, 5, 7]] [2, 0, 1]).flatten
      = (Parallel [MulConstant 64, MulConstant 8, MulConstant 1]).forward
          [[1, 3, 5], [2, 4, 6], [3, 5, 7]] :=
  ⟨by decide,
   (c8_parallel_order_independence [MulConstant 64, MulConstant 8, MulConstant 1]
     [[1, 3, 5], [2, 4, 6], [3, 5, 7]]).2 [2, 0, 1] (by decide)⟩

end TraxLayers

namespace TraxLayers

/-- An identifier already bound in the environment stays bound through
any further initialization visits. -/
theorem lookup_isSome_foldl {π : Type} :
    ∀ (occs : List (LayerInstance π)) (st : List (Nat × π) × Nat) (x : Nat),
      ((st.1.lookup x).isSome = true) →
      (((occs.foldl initOnce st).1.lookup x).isSome = true)
  | [], _, _, h => h
  | o :: rest, st, x, h => by
      rw [List.foldl_cons]
      apply lookup_isSome_foldl rest
      cases ho : st.1.lookup o.id with
      | some p => simp only [initOnce, ho]; exact h
      | none =>
        simp only [initOnce, ho]
        cases hbe : x == o.id with
        | true => simp [List.lookup, hbe]
        | false => simpa [List.lookup, hbe] using h

/-- After an initialization pass over a composition's occurrences,
every occurring instance identifier is bound. -/
theorem lookup_isSome_initPass {π : Type} :
    ∀ (occs : List (LayerInstance π)) (st : List (Nat × π) × Nat) (i : LayerInstance π),
      i ∈ occs → (((occs.foldl initOnce st).1.lookup i.id).isSome = true)
  | [], _, i, hmem => absurd hmem (List.not_mem_nil i)
  | o :: rest, st, i, hmem => by
      rw [List.foldl_cons]
      by_cases hi : i ∈ rest
      · exact lookup_isSome_initPass rest _ i hi
      · have : i = o := by
          rcases List.mem_cons.mp hmem with h | h
          · exact h
          · exact absurd h hi
        subst this
        apply lookup_isSome_foldl
        cases ho : st.1.lookup i.id with
        | some p => simp [initOnce, ho]
        | none => simp [initOnce, ho, List.lookup]

/-- Visiting an already-initialized instance any number of times leaves
the state — environment and work count alike — unchanged. -/
theorem foldl_initOnce_replicate {π : Type} (inst : LayerInstance π) :
    ∀ (n : Nat) (st : List (Nat × π) × Nat),
      ((st.1.lookup inst.id).isSome = true) →
      List.foldl initOnce st (List.replicate n inst) = st
  | 0, _, _ => rfl
  | n + 1, st, h => by
      rw [List.replicate_succ, List.foldl_cons]
      have hstep : initOnce st inst = st := by
        cases ho : st.1.lookup inst.id with
        | none => rw [ho] at h; cases h
        | some p => simp [initOnce, ho]
      rw [hstep]
      exact foldl_initOnce_replicate inst n st h

/-- C5. For every layer instance, running the initialization protocol
twice on the same instance is the same as running it once (idempotence
keyed by instance identity); after one initialization pass, any two
occurrences of the same instance in a composition retrieve the same
stored parameter value (weight sharing); and the total initialization
work for n + 1 references to one shared instance is a single
initializer run, so work does not scale with the number of
references. -/
theorem c5_initialization_idempotent_shared {π : Type} :
    (∀ (st : List (Nat × π) × Nat) (inst : LayerInstance π),
        initOnce (initOnce st inst) inst = initOnce st inst) ∧
    (∀ (occs : List (LayerInstance π)) (i j : LayerInstance π),
        i ∈ occs → j ∈ occs → i.id = j.id →
        ∃ p, (initPass occs).1.lookup i.id = some p ∧
          (initPass occs).1.lookup j.id = some p) ∧
    (∀ (inst : LayerInstance π) (n : Nat),
        (initPass (List.replicate (n + 1) inst)).2 = 1) := by
  refine ⟨fun st inst => ?_, fun occs i j hi hj hij => ?_, fun inst n => ?_⟩
  · cases h : st.1.lookup inst.id with
    | some p => simp [initOnce, h]
    | none => simp [initOnce, h, List.lookup]
  · obtain ⟨p, hp⟩ := Option.isSome_iff_exists.mp (lookup_isSome_initPass occs ([], 0) i hi)
    exact ⟨p, hp, by rw [← hij]; exact hp⟩
  · rw [initPass, List.replicate_succ, List.foldl_cons]
    have hfirst : initOnce (([] : List (Nat × π)), 0) inst
        = ([(inst.id, inst.initParams)], 1) := by
      simp [initOnce, List.lookup]
    rw [hfirst, foldl_initOnce_replicate inst n _ (by simp [List.lookup])]

/-- Witness for C5: two occurrences of the shared instance 0 give one
stored value retrieved at both positions, and two references cost one
initializer run. -/
theorem c5_witness :
    (∃ p, (initPass [sharedInstance, sharedInstance]).1.lookup sharedInstance.id = some p ∧
      (initPass [sharedInstance, sharedInstance]).1.lookup sharedInstance.id = some p) ∧
    (initPass (List.replicate 2 sharedInstance)).2 = 1 :=
  ⟨c5_initialization_idempotent_shared.2.1 [sharedInstance, sharedInstance]
      sharedInstance sharedInstance (by simp) (by simp) rfl,
   c5_initialization_idempotent_shared.2.2 sharedInstance 1⟩

/-- C9. The Parallel combination of the three multiply-by-constant
layers with constants 64, 8 and 1, applied to the notebook's inputs
([1,3,5], [2,4,6], [3,5,7]), yields exactly
([64,192,320], [16,32,48], [3,5,7]). -/
theorem c9_octal_place_values_concrete :
    octal_place_values.forward [[1, 3, 5], [2, 4, 6], [3, 5, 7]]
      = [[64, 192, 320], [16, 32, 48], [3, 5, 7]] := by
  decide

end TraxLayers

/-- C10. In the configuration file as written, the value bound to
`LSHCausalAttention.n_buckets` (1024) equals exactly twice the value
bound to `LSHCausalAttention.n_bins` (512), as the file's own comment
("Always 2 * n_bins") states. -/
theorem c10_n_buckets_twice_n_bins :
    ReformerEnwik8Gin.lshCausalAttention.n_buckets
      = 2 * ReformerEnwik8Gin.lshCausalAttention.n_bins := rfl
